import Mathlib

/-!
Verification of the synthetic authentication-log generator
(`generate_synthetic_auth_logs.py`).

The generator is a single-pass, deterministic pipeline driven by one seeded
pseudo-random source.  We embed the random source as an infinite tape of
natural numbers together with a position; every primitive consumes tape
cells in the order the Python code calls the `random.Random` methods.
`random()` is modelled as a rational in `[0,1)` with 53-bit resolution
(CPython's float resolution), `randint a b` as `a + cell % (b - a + 1)`,
`choice` as indexing by `cell % length`, and `shuffle` as the Fisher-Yates
loop `random.Random.shuffle` performs.  Timestamps are UTC instants in
whole seconds (an `Int` epoch offset); the code's ISO-8601 rendering of an
instant at `timespec="seconds"` is an injective presentation of exactly
this value, so the instant itself is what we reason about.  IPv4/IPv6
addresses are their numeric values; the code's dotted-quad rendering is
likewise injective.
-/

/-- The pseudo-random source: an infinite tape of raw draws and a cursor.
A run of the Python generator with a fixed seed corresponds to one fixed
tape; every `random.Random` method call consumes one cell. -/
structure RNG where
  tape : Nat → Nat
  pos : Nat

/-- `random.random()`: a uniform rational in `[0,1)` with 53-bit resolution. -/
def RNG.randomQ (r : RNG) : ℚ × RNG :=
  (((r.tape r.pos % 2 ^ 53 : ℕ) : ℚ) / 2 ^ 53, ⟨r.tape, r.pos + 1⟩)

/-- `random.randint a b` (inclusive both ends; defined for `a ≤ b`,
matching the domain on which Python does not raise). -/
def RNG.randNat (r : RNG) (a b : Nat) : Nat × RNG :=
  (a + r.tape r.pos % (b + 1 - a), ⟨r.tape, r.pos + 1⟩)

/-- `random.choice l`: uniform index into `l`.  Python raises on an empty
list; the embedding returns the default `d` there (all call sites in the
program pass non-empty literals). -/
def RNG.choice (r : RNG) (l : List α) (d : α) : α × RNG :=
  (l.getD (r.tape r.pos % l.length) d, ⟨r.tape, r.pos + 1⟩)

/-- One in-place transposition of positions `i` and `j` (identity when a
position is out of range, which the shuffle loop never produces). -/
def listSwap (l : List α) (i j : Nat) : List α :=
  match l[i]?, l[j]? with
  | some x, some y => (l.set i y).set j x
  | _, _ => l

/-- The body of `random.Random.shuffle`: for `i` from `n` down to `1`,
draw `j` uniformly in `[0, i]` and swap positions `i` and `j`. -/
def shuffleAux : RNG → List α → Nat → List α × RNG
  | rng, a, 0 => (a, rng)
  | rng, a, i + 1 =>
    let j := rng.randNat 0 (i + 1)
    shuffleAux j.2 (listSwap a (i + 1) j.1) i

/-- `random.Random.shuffle`: Fisher-Yates over the whole list. -/
def RNG.shuffle (rng : RNG) (l : List α) : List α × RNG :=
  shuffleAux rng l (l.length - 1)

/-- IP version tag of a parsed network. -/
inductive IPVersion
  | v4
  | v6
deriving DecidableEq

/-- A parsed CIDR block (`ipaddress.ip_network(cidr, strict=False)`): the
version, the address as written (host bits may be set; `strict=False`
masks them), and the prefix length. -/
structure IPNet where
  version : IPVersion
  addr : Nat
  prefix_len : Nat
deriving DecidableEq

/-- Bit width of the address family. -/
def IPNet.bits (n : IPNet) : Nat :=
  match n.version with
  | .v4 => 32
  | .v6 => 128

/-- `net.num_addresses`. -/
def IPNet.num_addresses (n : IPNet) : Nat := 2 ^ (n.bits - n.prefix_len)

/-- `net.network_address`: the written address with host bits cleared. -/
def IPNet.network_address (n : IPNet) : Nat := n.addr - n.addr % n.num_addresses

/-- `net.broadcast_address` (last address of the block). -/
def IPNet.broadcast_address (n : IPNet) : Nat :=
  n.network_address + n.num_addresses - 1

/-- `random_ip_from_cidr`: uniform address in the block, excluding the
network and broadcast addresses for IPv4 blocks with more than 2
addresses. -/
def random_ip_from_cidr (rng : RNG) (net : IPNet) : Nat × RNG :=
  let fl : Nat × Nat :=
    if net.version = .v4 ∧ net.num_addresses > 2 then
      (net.network_address + 1, net.broadcast_address - 1)
    else
      (net.network_address, net.network_address + net.num_addresses - 1)
  RNG.randNat rng fl.1 fl.2

/-- The cumulative-sum walk inside `weighted_choice`: return the first
label whose running total reaches the draw `r`, else the fallback `fb`
(Python: `items[-1][0]`). -/
def weightedChoiceAux (r : ℚ) (fb : String) : List (String × ℚ) → ℚ → String
  | [], _ => fb
  | p :: rest, upto => if r ≤ upto + p.2 then p.1 else weightedChoiceAux r fb rest (upto + p.2)

/-- `weighted_choice`: draw `r` uniform in `[0, Σ weights)` and walk the
cumulative sum. -/
def weighted_choice (rng : RNG) (items : List (String × ℚ)) : String × RNG :=
  let total := (items.map Prod.snd).sum
  let q := rng.randomQ
  (weightedChoiceAux (q.1 * total) (((items.getLast?).map Prod.fst).getD "") items 0, q.2)

/-- Specification-side companion of `weighted_choice`: the first label in
iteration order whose cumulative weight is `≥ r`, stated by peeling
weights off `r` instead of accumulating. -/
def firstCumGe (r : ℚ) : List (String × ℚ) → Option String
  | [] => none
  | p :: rest => if r ≤ p.2 then some p.1 else firstCumGe (r - p.2) rest

/-- `random_timestamp`: uniform instant in the window, with an optional
80%-probability override that keeps the base instant's UTC date but
redraws hour (from the preferred inclusive range), minute and second. -/
def random_timestamp (rng : RNG) (start e : Int) (prefer : Option (Nat × Nat)) : Int × RNG :=
  let total := (e - start).toNat
  let off := rng.randNat 0 total
  let base : Int := start + (off.1 : Int)
  match prefer with
  | none => (base, off.2)
  | some hp =>
    let q := RNG.randomQ off.2
    if q.1 < 8 / 10 then
      let h := RNG.randNat q.2 hp.1 hp.2
      let m := RNG.randNat h.2 0 59
      let s := RNG.randNat m.2 0 59
      (base - base % 86400 + (h.1 : Int) * 3600 + (m.1 : Int) * 60 + (s.1 : Int), s.2)
    else (base, q.2)

/-- A user profile row of the built-in table. -/
structure UserProfile where
  username : String
  home_country : String
  usual_hours : Nat × Nat
  success_rate : ℚ
  known_ip_blocks : List IPNet
deriving DecidableEq

/-- Numeric value of a dotted-quad IPv4 address. -/
def v4addr (a b c d : Nat) : Nat := ((a * 256 + b) * 256 + c) * 256 + d

/-- An IPv4 CIDR block written `a.b.c.d/p`. -/
def v4net (a b c d p : Nat) : IPNet := ⟨.v4, v4addr a b c d, p⟩

/-- `build_user_profiles`: the fixed five-user table. -/
def build_user_profiles : List UserProfile :=
  [⟨"alice", "US", (8, 17), 97 / 100, [v4net 10 10 10 0 24, v4net 192 168 10 0 24]⟩,
   ⟨"bob", "US", (7, 16), 96 / 100, [v4net 10 10 20 0 24, v4net 192 168 20 0 24]⟩,
   ⟨"carol", "CA", (9, 18), 98 / 100, [v4net 10 10 30 0 24, v4net 192 168 30 0 24]⟩,
   ⟨"dave", "GB", (6, 15), 95 / 100, [v4net 10 10 40 0 24, v4net 192 168 40 0 24]⟩,
   ⟨"svc_backup", "US", (0, 23), 995 / 1000, [v4net 10 99 0 0 24]⟩]

/-- Default profile handed to `RNG.choice` (Python's `rng.choice` raises on
an empty list; the profile table is never empty). -/
def defaultProfile : UserProfile :=
  ⟨"alice", "US", (8, 17), 97 / 100, [v4net 10 10 10 0 24, v4net 192 168 10 0 24]⟩

/-- One output record.  `timestamp_utc` is the UTC instant in whole epoch
seconds (the code serialises exactly this instant via
`isoformat(timespec="seconds")`); `source_ip` is the numeric address (the
code serialises its dotted-quad rendering). -/
structure AuthEvent where
  timestamp_utc : Int
  username : String
  event_source : String
  auth_type : String
  source_ip : Nat
  country : String
  result : String
  failure_reason : String
  is_injected_anomaly : String
deriving DecidableEq

/-- A default record for positional `List.getD` access in statements. -/
def dfltEvent : AuthEvent := ⟨0, "", "", "", 0, "", "", "", ""⟩

/-- The fixed `event_source` distribution of `generate_normal_events`. -/
def event_sources : List (String × ℚ) :=
  [("linux-sshd", 45 / 100), ("windows-ad", 35 / 100), ("vpn-gateway", 20 / 100)]

/-- The fixed `auth_type` distribution. -/
def auth_types : List (String × ℚ) :=
  [("password", 75 / 100), ("ssh_key", 18 / 100), ("mfa_push", 7 / 100)]

/-- The fixed user-agent distribution (sampled, never written out). -/
def user_agents : List (String × ℚ) :=
  [("OpenSSH_8.9", 35 / 100), ("Windows10", 30 / 100), ("macOS", 15 / 100),
   ("curl/7.81", 5 / 100), ("unknown", 15 / 100)]

/-- The fixed alternate-country list of line 113. -/
def altCountries : List String := ["US", "CA", "GB", "DE", "FR", "AU", "JP"]

/-- The fixed failure-reason list of line 127. -/
def failureReasons : List String :=
  ["bad_password", "mfa_denied", "user_not_found", "expired_password"]

/-- The country sampler of line 113: the user's home country with
probability 0.92, else `rng.choice` over the fixed seven-code list. -/
def sampleCountry (rng : RNG) (home : String) : String × RNG :=
  let q := rng.randomQ
  if q.1 < 92 / 100 then (home, q.2) else RNG.choice q.2 altCountries "US"

/-- `generate_normal_events`: `n` benign records, each sampled from a
uniformly chosen profile, consuming the random source exactly in the
Python call order. -/
def generate_normal_events (users : List UserProfile) (start e : Int) :
    RNG → Nat → List AuthEvent × RNG
  | rng, 0 => ([], rng)
  | rng, n + 1 =>
    let uc := RNG.choice rng users defaultProfile
    let u := uc.1
    let ts := random_timestamp uc.2 start e
      (if u.username ≠ "svc_backup" then some u.usual_hours else none)
    let src := weighted_choice ts.2 event_sources
    let auth := weighted_choice src.2 auth_types
    let ua := weighted_choice auth.2 user_agents
    let blk := RNG.choice ua.2 u.known_ip_blocks (v4net 10 10 10 0 24)
    let ip := random_ip_from_cidr blk.2 blk.1
    let ctry := sampleCountry ip.2 u.home_country
    let sq := RNG.randomQ ctry.2
    let reason :=
      if sq.1 < u.success_rate then ("", sq.2)
      else RNG.choice sq.2 failureReasons "bad_password"
    let ev : AuthEvent :=
      ⟨ts.1, u.username, src.1, auth.1, ip.1, ctry.1,
        if sq.1 < u.success_rate then "SUCCESS" else "FAILURE", reason.1, ""⟩
    let rest := generate_normal_events users start e reason.2 n
    (ev :: rest.1, rest.2)

/-- 203.0.113.0/24, the impossible-travel "US" block. -/
def net203 : IPNet := v4net 203 0 113 0 24

/-- 198.51.100.0/24, the impossible-travel "JP" block. -/
def net19851 : IPNet := v4net 198 51 100 0 24

/-- 45.33.0.0/16, the brute-force source block. -/
def net4533 : IPNet := v4net 45 33 0 0 16

/-- 198.18.0.0/15, the off-hours scenario block. -/
def net19818 : IPNet := v4net 198 18 0 0 15

/-- 172.31.0.0/16, the rare service-account block. -/
def net17231 : IPNet := v4net 172 31 0 0 16

/-- The impossible-travel loop of `inject_anomalies`: per user, a "US"
success at `start + uniform[10,40]` hours and a "JP" success
`uniform[5,35]` minutes later. -/
def impTravel (start : Int) : RNG → List String → List AuthEvent × RNG
  | rng, [] => ([], rng)
  | rng, u :: rest =>
    let hh := rng.randNat 10 40
    let t1 : Int := start + 3600 * (hh.1 : Int)
    let mm := RNG.randNat hh.2 5 35
    let t2 : Int := t1 + 60 * (mm.1 : Int)
    let ip1 := random_ip_from_cidr mm.2 net203
    let e1 : AuthEvent := ⟨t1, u, "vpn-gateway", "password", ip1.1, "US", "SUCCESS", "", ""⟩
    let ip2 := random_ip_from_cidr ip1.2 net19851
    let e2 : AuthEvent := ⟨t2, u, "vpn-gateway", "password", ip2.1, "JP", "SUCCESS", "", ""⟩
    let rest2 := impTravel start ip2.2 rest
    (e1 :: e2 :: rest2.1, rest2.2)

/-- The victims offered by the brute-force username draw. -/
def bruteAltUsers : List String := ["alice", "bob", "dave", "unknown_user"]

/-- The brute-force country pool. -/
def bruteCountries : List String := ["DE", "FR", "RU", "CN"]

/-- The brute-force failure loop: `k` FAILURE records at one-minute
increments starting at minute `i`, all from the single address `ip`. -/
def bruteFails (base : Int) (ip : Nat) : Nat → Nat → RNG → List AuthEvent × RNG
  | _, 0, rng => ([], rng)
  | i, k + 1, rng =>
    let q := rng.randomQ
    let un := if q.1 < 7 / 10 then ("carol", q.2) else RNG.choice q.2 bruteAltUsers "alice"
    let c := RNG.choice un.2 bruteCountries "DE"
    let ev : AuthEvent :=
      ⟨base + 60 * (i : Int), un.1, "linux-sshd", "password", ip, c.1, "FAILURE", "bad_password", ""⟩
    let rest := bruteFails base ip (i + 1) k c.2
    (ev :: rest.1, rest.2)

/-- The 19 anomaly records `inject_anomalies` constructs before tagging:
4 impossible-travel, 12 brute-force failures, the brute-force success,
the off-hours record and the service-account record, in program order. -/
def buildAnomalies (rng : RNG) (start : Int) : List AuthEvent × RNG :=
  let imp := impTravel start rng ["alice", "bob"]
  let hb := RNG.randNat imp.2 60 90
  let base : Int := start + 3600 * (hb.1 : Int)
  let bip := random_ip_from_cidr hb.2 net4533
  let fails := bruteFails base bip.1 0 12 bip.2
  let sc := RNG.choice fails.2 bruteCountries "DE"
  let succEv : AuthEvent :=
    ⟨base + 60 * 13, "carol", "linux-sshd", "password", bip.1, sc.1, "SUCCESS", "", ""⟩
  let m3 := RNG.randNat sc.2 0 59
  let t3 : Int := start + 2 * 86400 + 3 * 3600 + 60 * (m3.1 : Int)
  let ip3 := random_ip_from_cidr m3.2 net19818
  let offEv : AuthEvent := ⟨t3, "dave", "windows-ad", "mfa_push", ip3.1, "AU", "SUCCESS", "", ""⟩
  let m4 := RNG.randNat ip3.2 0 59
  let t4 : Int := start + 86400 + 12 * 3600 + 60 * (m4.1 : Int)
  let ip4 := random_ip_from_cidr m4.2 net17231
  let svcEv : AuthEvent := ⟨t4, "svc_backup", "linux-sshd", "ssh_key", ip4.1, "US", "SUCCESS", "", ""⟩
  (imp.1 ++ fails.1 ++ [succEv, offEv, svcEv], ip4.2)

/-- The tagging pass over the anomaly records. -/
def tagAnomaly (ev : AuthEvent) : AuthEvent := { ev with is_injected_anomaly := "true" }

/-- The tagging pass over the pre-existing normal records. -/
def tagNormal (ev : AuthEvent) : AuthEvent := { ev with is_injected_anomaly := "false" }

/-- `inject_anomalies`: append the 19 anomalies, tag every record, and
shuffle the combined list with the shared random source.  (The `e`
parameter mirrors the unused `end` argument of the Python function.) -/
def inject_anomalies (rng : RNG) (events : List AuthEvent) (start e : Int) :
    List AuthEvent × RNG :=
  let anoms := buildAnomalies rng start
  let combined := events.map tagNormal ++ anoms.1.map tagAnomaly
  RNG.shuffle anoms.2 combined

/-- The generation pipeline of `main`: window `[now - days, now]`, the
fixed profile table, `rows` normal events, then anomaly injection.  The
returned list is the combined dataset `main` writes to CSV. -/
def mainCombined (tape : Nat → Nat) (rows days : Nat) (now : Int) : List AuthEvent :=
  let rng : RNG := ⟨tape, 0⟩
  let e := now
  let start : Int := e - 86400 * (days : Int)
  let normal := generate_normal_events build_user_profiles start e rng rows
  (inject_anomalies normal.2 normal.1 start e).1

/-- The 13 brute-force records: positions 4-16 of the anomaly list
(after the 4 impossible-travel records, before the off-hours and
service-account records). -/
def bruteSlice (rng : RNG) (start : Int) : List AuthEvent :=
  (((buildAnomalies rng start).1).drop 4).take 13

/-! ## Basic facts about the random-source primitives -/

theorem RNG.le_randNat (r : RNG) (a b : Nat) : a ≤ (r.randNat a b).1 := by
  simp [RNG.randNat]

theorem RNG.randNat_le (r : RNG) {a b : Nat} (h : a ≤ b) : (r.randNat a b).1 ≤ b := by
  have h1 : r.tape r.pos % (b + 1 - a) < b + 1 - a := Nat.mod_lt _ (by omega)
  simp only [RNG.randNat]
  omega

theorem RNG.randomQ_nonneg (r : RNG) : 0 ≤ (r.randomQ).1 := by
  simp only [RNG.randomQ]
  positivity

theorem RNG.randomQ_lt_one (r : RNG) : (r.randomQ).1 < 1 := by
  simp only [RNG.randomQ]
  rw [div_lt_one (by positivity)]
  exact_mod_cast Nat.mod_lt _ (by positivity)

theorem RNG.choice_mem (r : RNG) (l : List α) (d : α) (h : l ≠ []) : (r.choice l d).1 ∈ l := by
  have hl : 0 < l.length := List.length_pos.mpr h
  have hi : r.tape r.pos % l.length < l.length := Nat.mod_lt _ hl
  simp only [RNG.choice, List.getD_eq_getElem?_getD, List.getElem?_eq_getElem hi,
    Option.getD_some]
  exact List.getElem_mem hi

/-! ## The shuffle is a permutation -/

theorem cons_get_set_perm (t : List α) :
    ∀ (m : Nat) (a : α) (h : m < t.length),
      List.Perm (t.get ⟨m, h⟩ :: t.set m a) (a :: t) := by
  induction t with
  | nil => intro m a h; simp at h
  | cons b s ih =>
    intro m a h
    cases m with
    | zero => simpa using List.Perm.swap a b s
    | succ k =>
      have hk : k < s.length := by simpa using h
      have h1 := List.Perm.swap b (s.get ⟨k, hk⟩) (s.set k a)
      have h2 := (ih k a hk).cons b
      have h3 := List.Perm.swap a b s
      simpa using (h1.trans (h2.trans h3))

theorem set_set_swap_perm (l : List α) :
    ∀ (i j : Nat) (hi : i < l.length) (hj : j < l.length),
      List.Perm ((l.set i (l.get ⟨j, hj⟩)).set j (l.get ⟨i, hi⟩)) l := by
  induction l with
  | nil => intro i j hi _; simp at hi
  | cons a t ih =>
    intro i j hi hj
    match i, j with
    | 0, 0 => simp
    | 0, m + 1 =>
      have hm : m < t.length := by simpa using hj
      simpa using cons_get_set_perm t m a hm
    | n + 1, 0 =>
      have hn : n < t.length := by simpa using hi
      simpa using cons_get_set_perm t n a hn
    | n + 1, m + 1 =>
      have hn : n < t.length := by simpa using hi
      have hm : m < t.length := by simpa using hj
      simpa using (ih n m hn hm).cons a

theorem listSwap_perm (l : List α) (i j : Nat) : List.Perm (listSwap l i j) l := by
  unfold listSwap
  split
  · next x y hx hy =>
    have hi : i < l.length := (List.getElem?_eq_some.mp hx).1
    have hj : j < l.length := (List.getElem?_eq_some.mp hy).1
    have hx1 : x = l.get ⟨i, hi⟩ := by
      have := (List.getElem?_eq_some.mp hx).2
      simp [← this]
    have hy1 : y = l.get ⟨j, hj⟩ := by
      have := (List.getElem?_eq_some.mp hy).2
      simp [← this]
    subst hx1 hy1
    exact set_set_swap_perm l i j hi hj
  · exact List.Perm.refl l

theorem shuffleAux_perm : ∀ (n : Nat) (rng : RNG) (a : List α),
    List.Perm (shuffleAux rng a n).1 a := by
  intro n
  induction n with
  | zero => intro rng a; exact List.Perm.refl a
  | succ i ih =>
    intro rng a
    simp only [shuffleAux]
    exact (ih _ _).trans (listSwap_perm a (i + 1) _)

theorem shuffle_perm (rng : RNG) (l : List α) : List.Perm (rng.shuffle l).1 l :=
  shuffleAux_perm _ _ _

/-! ## Weighted choice -/

theorem weightedChoiceAux_eq_firstCumGe (r : ℚ) (fb : String) :
    ∀ (items : List (String × ℚ)) (upto : ℚ),
      weightedChoiceAux r fb items upto = (firstCumGe (r - upto) items).getD fb := by
  intro items
  induction items with
  | nil => intro upto; rfl
  | cons p rest ih =>
    intro upto
    simp only [weightedChoiceAux, firstCumGe]
    by_cases h : r ≤ upto + p.2
    · rw [if_pos h, if_pos (by linarith), Option.getD_some]
    · rw [if_neg h, if_neg (by intro hc; exact h (by linarith)), ih, sub_sub]

theorem firstCumGe_isSome :
    ∀ (items : List (String × ℚ)) (r : ℚ), items ≠ [] →
      r ≤ (items.map Prod.snd).sum → (firstCumGe r items).isSome := by
  intro items
  induction items with
  | nil => intro r h; exact absurd rfl h
  | cons p rest ih =>
    intro r _ hr
    simp only [firstCumGe]
    by_cases h : r ≤ p.2
    · rw [if_pos h]; rfl
    · rw [if_neg h]
      rcases rest with _ | ⟨q, rest2⟩
      · exfalso
        simp only [List.map_cons, List.map_nil, List.sum_cons, List.sum_nil, add_zero] at hr
        exact h hr
      · apply ih _ (by simp)
        simp only [List.map_cons, List.sum_cons] at hr ⊢
        linarith

theorem firstCumGe_mem :
    ∀ (items : List (String × ℚ)) (r : ℚ) (s : String),
      firstCumGe r items = some s → s ∈ items.map Prod.fst := by
  intro items
  induction items with
  | nil => intro r s h; simp [firstCumGe] at h
  | cons p rest ih =>
    intro r s h
    simp only [firstCumGe] at h
    by_cases hc : r ≤ p.2
    · rw [if_pos hc] at h
      simp only [Option.some.injEq] at h
      simp [← h]
    · rw [if_neg hc] at h
      simp only [List.map_cons, List.mem_cons]
      exact Or.inr (ih _ _ h)

/-! ## Structure of the generated record lists -/

theorem generate_normal_events_length (users : List UserProfile) (start e : Int) :
    ∀ (n : Nat) (rng : RNG),
      ((generate_normal_events users start e rng n).1).length = n := by
  intro n
  induction n with
  | zero => intro rng; rfl
  | succ n ih =>
    intro rng
    simp only [generate_normal_events, List.length_cons, ih]
theorem ite_result_reason_ok (c : Prop) [Decidable c] (rng : RNG) :
    ((if c then "SUCCESS" else "FAILURE") = "SUCCESS" ∧
        (if c then (("" : String), rng) else RNG.choice rng failureReasons "bad_password").1 = "") ∨
      ((if c then "SUCCESS" else "FAILURE") = "FAILURE" ∧
        (if c then (("" : String), rng) else RNG.choice rng failureReasons "bad_password").1 ∈
          failureReasons) := by
  by_cases h : c
  · left; simp [h]
  · right
    refine ⟨by simp [h], ?_⟩
    simp only [if_neg h]
    exact RNG.choice_mem _ _ _ (by simp [failureReasons])

theorem generate_normal_events_mem (users : List UserProfile) (start e : Int) :
    ∀ (n : Nat) (rng : RNG) (ev : AuthEvent),
      ev ∈ (generate_normal_events users start e rng n).1 →
        (ev.result = "SUCCESS" ∧ ev.failure_reason = "") ∨
          (ev.result = "FAILURE" ∧ ev.failure_reason ∈ failureReasons) := by
  intro n
  induction n with
  | zero => intro rng ev h; simp [generate_normal_events] at h
  | succ n ih =>
    intro rng ev h
    simp only [generate_normal_events, List.mem_cons] at h
    rcases h with h | h
    · subst h
      exact ite_result_reason_ok _ _
    · exact ih _ _ h

theorem bruteFails_length (base : Int) (ip : Nat) :
    ∀ (k i : Nat) (rng : RNG), ((bruteFails base ip i k rng).1).length = k := by
  intro k
  induction k with
  | zero => intro i rng; rfl
  | succ k ih => intro i rng; simp only [bruteFails, List.length_cons, ih]

theorem bruteFails_mem (base : Int) (ip : Nat) :
    ∀ (k i : Nat) (rng : RNG) (ev : AuthEvent),
      ev ∈ (bruteFails base ip i k rng).1 →
        ev.result = "FAILURE" ∧ ev.failure_reason = "bad_password" ∧
          ev.event_source = "linux-sshd" ∧ ev.auth_type = "password" ∧
          ev.source_ip = ip ∧ ev.username ∈ "carol" :: bruteAltUsers ∧
          ev.country ∈ bruteCountries := by
  intro k
  induction k with
  | zero => intro i rng ev h; simp [bruteFails] at h
  | succ k ih =>
    intro i rng ev h
    simp only [bruteFails, List.mem_cons] at h
    rcases h with h | h
    · subst h
      refine ⟨rfl, rfl, rfl, rfl, rfl, ?_, ?_⟩
      · by_cases hq : (RNG.randomQ rng).1 < 7 / 10
        · simp only [if_pos hq]
          exact List.mem_cons_self _ _
        · simp only [if_neg hq]
          exact List.mem_cons_of_mem _ (RNG.choice_mem _ _ _ (by simp [bruteAltUsers]))
      · exact RNG.choice_mem _ _ _ (by simp [bruteCountries])
    · exact ih _ _ _ h

theorem bruteFails_map_ts (base : Int) (ip : Nat) :
    ∀ (k i : Nat) (rng : RNG),
      ((bruteFails base ip i k rng).1).map (fun ev => ev.timestamp_utc)
        = (List.range k).map (fun j => base + 60 * ((i + j : Nat) : Int)) := by
  intro k
  induction k with
  | zero => intro i rng; rfl
  | succ k ih =>
    intro i rng
    rw [List.range_succ_eq_map]
    simp only [bruteFails, List.map_cons, ih, List.map_map]
    refine congrArg₂ _ (by simp) ?_
    refine List.map_congr_left fun j _ => ?_
    simp only [Function.comp_apply]
    push_cast
    ring

theorem bruteFails_map_ip (base : Int) (ip : Nat) (k i : Nat) (rng : RNG) :
    ((bruteFails base ip i k rng).1).map (fun ev => ev.source_ip) = List.replicate k ip := by
  rw [List.eq_replicate_iff]
  constructor
  · simp [bruteFails_length]
  · intro b hb
    rcases List.mem_map.mp hb with ⟨ev, hev, rfl⟩
    exact (bruteFails_mem base ip k i rng ev hev).2.2.2.2.1

theorem bruteFails_map_result (base : Int) (ip : Nat) (k i : Nat) (rng : RNG) :
    ((bruteFails base ip i k rng).1).map (fun ev => ev.result)
      = List.replicate k "FAILURE" := by
  rw [List.eq_replicate_iff]
  constructor
  · simp [bruteFails_length]
  · intro b hb
    rcases List.mem_map.mp hb with ⟨ev, hev, rfl⟩
    exact (bruteFails_mem base ip k i rng ev hev).1

theorem impTravel_mem (start : Int) :
    ∀ (us : List String) (rng : RNG) (ev : AuthEvent),
      ev ∈ (impTravel start rng us).1 →
        ev.result = "SUCCESS" ∧ ev.failure_reason = "" := by
  intro us
  induction us with
  | nil => intro rng ev h; simp [impTravel] at h
  | cons u rest ih =>
    intro rng ev h
    simp only [impTravel, List.mem_cons] at h
    rcases h with h | h | h
    · subst h; exact ⟨rfl, rfl⟩
    · subst h; exact ⟨rfl, rfl⟩
    · exact ih _ _ h

theorem buildAnomalies_mem (rng : RNG) (start : Int) (ev : AuthEvent)
    (h : ev ∈ (buildAnomalies rng start).1) :
    (ev.result = "SUCCESS" ∧ ev.failure_reason = "") ∨
      (ev.result = "FAILURE" ∧ ev.failure_reason ∈ failureReasons) := by
  simp only [buildAnomalies, List.append_assoc, List.mem_append, List.mem_cons,
    List.mem_singleton, List.not_mem_nil, or_false] at h
  rcases h with h | h | h | h | h
  · exact Or.inl (impTravel_mem start _ _ _ h)
  · have := bruteFails_mem _ _ _ _ _ _ h
    exact Or.inr ⟨this.1, by rw [this.2.1]; simp [failureReasons]⟩
  · subst h; exact Or.inl ⟨rfl, rfl⟩
  · subst h; exact Or.inl ⟨rfl, rfl⟩
  · subst h; exact Or.inl ⟨rfl, rfl⟩

theorem buildAnomalies_length (rng : RNG) (start : Int) :
    ((buildAnomalies rng start).1).length = 19 := by
  simp [buildAnomalies, impTravel, bruteFails_length]

theorem inject_anomalies_stats (rng : RNG) (events : List AuthEvent) (start e : Int) :
    ((inject_anomalies rng events start e).1).length = events.length + 19 ∧
      ((inject_anomalies rng events start e).1).countP
        (fun ev => ev.is_injected_anomaly == "true") = 19 ∧
      ((inject_anomalies rng events start e).1).countP
        (fun ev => ev.is_injected_anomaly == "false") = events.length := by
  have hperm : List.Perm (inject_anomalies rng events start e).1
      (events.map tagNormal ++ (buildAnomalies rng start).1.map tagAnomaly) :=
    shuffle_perm _ _
  refine ⟨?_, ?_, ?_⟩
  · rw [hperm.length_eq]
    simp [buildAnomalies_length]
  · rw [hperm.countP_eq, List.countP_append, List.countP_map, List.countP_map]
    have h1 : ((fun ev => ev.is_injected_anomaly == "true") ∘ tagNormal)
        = fun _ => false := by
      funext ev; simp [tagNormal]
    have h2 : ((fun ev => ev.is_injected_anomaly == "true") ∘ tagAnomaly)
        = fun _ => true := by
      funext ev; simp [tagAnomaly]
    rw [h1, h2]
    simp [buildAnomalies_length]
  · rw [hperm.countP_eq, List.countP_append, List.countP_map, List.countP_map]
    have h1 : ((fun ev => ev.is_injected_anomaly == "false") ∘ tagNormal)
        = fun _ => true := by
      funext ev; simp [tagNormal]
    have h2 : ((fun ev => ev.is_injected_anomaly == "false") ∘ tagAnomaly)
        = fun _ => false := by
      funext ev; simp [tagAnomaly]
    rw [h1, h2]
    simp

/-- C1: for every rows count `N ≥ 0` (and any seed tape, window and
reference instant), the combined output contains exactly `N + 19`
records, of which exactly 19 carry `is_injected_anomaly = "true"` and
exactly `N` carry `is_injected_anomaly = "false"`. -/
theorem thm_C1 (tape : Nat → Nat) (rows days : Nat) (now : Int) :
    (mainCombined tape rows days now).length = rows + 19 ∧
      (mainCombined tape rows days now).countP
        (fun ev => ev.is_injected_anomaly == "true") = 19 ∧
      (mainCombined tape rows days now).countP
        (fun ev => ev.is_injected_anomaly == "false") = rows := by
  have h := inject_anomalies_stats
    (generate_normal_events build_user_profiles (now - 86400 * (days : Int)) now ⟨tape, 0⟩ rows).2
    (generate_normal_events build_user_profiles (now - 86400 * (days : Int)) now ⟨tape, 0⟩ rows).1
    (now - 86400 * (days : Int)) now
  rw [generate_normal_events_length] at h
  exact h

theorem reason_result_bool (ev : AuthEvent)
    (h : (ev.result = "SUCCESS" ∧ ev.failure_reason = "") ∨
      (ev.result = "FAILURE" ∧ ev.failure_reason ∈ failureReasons)) :
    ((ev.failure_reason != "") == (ev.result == "FAILURE")) = true := by
  rcases h with ⟨h1, h2⟩ | ⟨h1, h2⟩
  · rw [h1, h2]; decide
  · rw [h1]
    simp only [failureReasons, List.mem_cons, List.not_mem_nil, or_false] at h2
    rcases h2 with h2 | h2 | h2 | h2 <;> rw [h2] <;> decide

/-- C2: every record of the combined output has a non-empty
`failure_reason` exactly when its `result` is `"FAILURE"`. -/
theorem thm_C2 (tape : Nat → Nat) (rows days : Nat) (now : Int) :
    (mainCombined tape rows days now).all
      (fun ev => (ev.failure_reason != "") == (ev.result == "FAILURE")) = true := by
  rw [List.all_eq_true]
  intro ev hev
  have hperm : List.Perm (mainCombined tape rows days now)
      ((generate_normal_events build_user_profiles (now - 86400 * (days : Int)) now
          ⟨tape, 0⟩ rows).1.map tagNormal ++
        (buildAnomalies (generate_normal_events build_user_profiles
          (now - 86400 * (days : Int)) now ⟨tape, 0⟩ rows).2
          (now - 86400 * (days : Int))).1.map tagAnomaly) :=
    shuffle_perm _ _
  have hev2 := hperm.mem_iff.mp hev
  rw [List.mem_append] at hev2
  rcases hev2 with hm | hm
  · rcases List.mem_map.mp hm with ⟨ev0, hev0, rfl⟩
    have hd := generate_normal_events_mem _ _ _ _ _ _ hev0
    exact reason_result_bool _ (by simpa [tagNormal] using hd)
  · rcases List.mem_map.mp hm with ⟨ev0, hev0, rfl⟩
    have hd := buildAnomalies_mem _ _ _ hev0
    exact reason_result_bool _ (by simpa [tagAnomaly] using hd)

/-- C3 counterexample: with a window that starts at 18:00 UTC
(start = 64800, end = start + 7 days) and preferred hours (8,17), the
very first draw produces base = start, the 80% override fires and
rewrites the hour to 8 on the same date, yielding an instant strictly
before the window start — so a normal row's timestamp need not lie in
`[start, end]`. -/
theorem thm_C3_counterexample :
    (64800 : Int) ≤ 669600 ∧
      (random_timestamp ⟨fun _ => 0, 0⟩ 64800 669600 (some (8, 17))).1 < 64800 := by
  refine ⟨by norm_num, ?_⟩
  norm_num [random_timestamp, RNG.randNat, RNG.randomQ]

/-- C3 amended: a normal row's timestamp always lies in the open interval
`(start - 24h, end + 24h)`; without the preferred-hours override (and in
particular whenever no preferred-hours pair is given) it lies in
`[start, end]` exactly.  The override keeps the base instant's UTC date,
so it can leave the window by strictly less than one day. -/
theorem thm_C3_amended (rng : RNG) (start e : Int) (prefer : Option (Nat × Nat))
    (hse : start ≤ e)
    (hp : ∀ p ∈ prefer, p.1 ≤ p.2 ∧ p.2 ≤ 23) :
    (start - 86400 < (random_timestamp rng start e prefer).1 ∧
        (random_timestamp rng start e prefer).1 < e + 86400) ∧
      (prefer = none → start ≤ (random_timestamp rng start e prefer).1 ∧
        (random_timestamp rng start e prefer).1 ≤ e) := by
  have h2 := RNG.randNat_le rng (Nat.zero_le (e - start).toNat)
  cases prefer with
  | none =>
    simp only [random_timestamp]
    refine ⟨⟨by omega, by omega⟩, fun _ => ⟨by omega, by omega⟩⟩
  | some hp2 =>
    have hple := (hp hp2 rfl).1
    have hp23 := (hp hp2 rfl).2
    simp only [random_timestamp]
    set r1 := RNG.randNat rng 0 (e - start).toNat with hr1
    set q := RNG.randomQ r1.2 with hq2
    set rh := RNG.randNat q.2 hp2.1 hp2.2 with hrh
    set rm := RNG.randNat rh.2 0 59 with hrm
    set rs := RNG.randNat rm.2 0 59 with hrs
    have hH : rh.1 ≤ hp2.2 := by rw [hrh]; exact RNG.randNat_le _ hple
    have hM : rm.1 ≤ 59 := by rw [hrm]; exact RNG.randNat_le _ (by omega)
    have hS : rs.1 ≤ 59 := by rw [hrs]; exact RNG.randNat_le _ (by omega)
    split
    · refine ⟨⟨?_, ?_⟩, fun hcon => by simp at hcon⟩ <;> omega
    · refine ⟨⟨by omega, by omega⟩, fun hcon => by simp at hcon⟩

theorem thm_C3_amended_witness :
    (((0 : Int) - 86400 < (random_timestamp ⟨fun _ => 0, 0⟩ 0 86400 (some (8, 17))).1 ∧
        (random_timestamp ⟨fun _ => 0, 0⟩ 0 86400 (some (8, 17))).1 < 86400 + 86400) ∧
      (some (8, 17) = none → (0 : Int) ≤ (random_timestamp ⟨fun _ => 0, 0⟩ 0 86400 (some (8, 17))).1 ∧
        (random_timestamp ⟨fun _ => 0, 0⟩ 0 86400 (some (8, 17))).1 ≤ 86400)) :=
  thm_C3_amended ⟨fun _ => 0, 0⟩ 0 86400 (some (8, 17)) (by norm_num) (by simp)

/-- C4: on a non-empty list with positive weights, `weighted_choice`
returns exactly the first label in iteration order whose cumulative
weight reaches the uniform draw `r = random() * Σweights`, and that
label is always one of the input labels; the `items[-1][0]` fallback is
unreachable under these hypotheses because `r < Σweights` holds in exact
arithmetic. -/
theorem thm_C4 (rng : RNG) (items : List (String × ℚ)) (hne : items ≠ [])
    (hpos : ∀ p ∈ items, 0 < p.2) :
    some (weighted_choice rng items).1
        = firstCumGe ((rng.randomQ).1 * (items.map Prod.snd).sum) items ∧
      (weighted_choice rng items).1 ∈ items.map Prod.fst := by
  have htot : 0 < (items.map Prod.snd).sum := by
    apply List.sum_pos
    · intro x hx
      rcases List.mem_map.mp hx with ⟨p, hp, rfl⟩
      exact hpos p hp
    · simp [hne]
  have hq0 := RNG.randomQ_nonneg rng
  have hq1 := RNG.randomQ_lt_one rng
  have hle : (rng.randomQ).1 * (items.map Prod.snd).sum ≤ (items.map Prod.snd).sum := by
    nlinarith
  have hsome := firstCumGe_isSome items _ hne hle
  obtain ⟨s, hs⟩ := Option.isSome_iff_exists.mp hsome
  have heq : (weighted_choice rng items).1 = s := by
    simp only [weighted_choice]
    rw [weightedChoiceAux_eq_firstCumGe, sub_zero, hs]
    rfl
  refine ⟨by rw [heq, hs], ?_⟩
  rw [heq]
  exact firstCumGe_mem items _ s hs

theorem thm_C4_witness :
    some (weighted_choice ⟨fun _ => 0, 0⟩ [("A", 1), ("B", 1)]).1
        = firstCumGe ((RNG.randomQ ⟨fun _ => 0, 0⟩).1 *
            (([(("A" : String), (1 : ℚ)), ("B", 1)]).map Prod.snd).sum)
            [("A", 1), ("B", 1)] ∧
      (weighted_choice ⟨fun _ => 0, 0⟩ [("A", 1), ("B", 1)]).1
        ∈ ([(("A" : String), (1 : ℚ)), ("B", 1)]).map Prod.fst :=
  thm_C4 ⟨fun _ => 0, 0⟩ [("A", 1), ("B", 1)] (by decide)
    (by intro p hp; fin_cases hp <;> norm_num)

theorem random_ip_bounds (rng : RNG) (net : IPNet) :
    net.network_address ≤ (random_ip_from_cidr rng net).1 ∧
      (random_ip_from_cidr rng net).1 ≤ net.broadcast_address ∧
      (net.version = .v4 ∧ 2 < net.num_addresses →
        net.network_address + 1 ≤ (random_ip_from_cidr rng net).1 ∧
          (random_ip_from_cidr rng net).1 ≤ net.broadcast_address - 1) := by
  have hnum : 1 ≤ net.num_addresses := Nat.one_le_two_pow
  simp only [IPNet.broadcast_address]
  by_cases hc : net.version = .v4 ∧ net.num_addresses > 2
  · have h1 : (random_ip_from_cidr rng net).1
        = (RNG.randNat rng (net.network_address + 1)
            (net.network_address + net.num_addresses - 1 - 1)).1 := by
      simp only [random_ip_from_cidr, if_pos hc, IPNet.broadcast_address]
    have hab : net.network_address + 1 ≤ net.network_address + net.num_addresses - 1 - 1 := by
      omega
    have hlo := RNG.le_randNat rng (net.network_address + 1)
      (net.network_address + net.num_addresses - 1 - 1)
    have hhi := RNG.randNat_le rng hab
    rw [h1]
    refine ⟨by omega, by omega, fun _ => ⟨hlo, by omega⟩⟩
  · have h1 : (random_ip_from_cidr rng net).1
        = (RNG.randNat rng net.network_address
            (net.network_address + net.num_addresses - 1)).1 := by
      simp only [random_ip_from_cidr, if_neg hc]
    have hab : net.network_address ≤ net.network_address + net.num_addresses - 1 := by omega
    have hlo := RNG.le_randNat rng net.network_address
      (net.network_address + net.num_addresses - 1)
    have hhi := RNG.randNat_le rng hab
    rw [h1]
    exact ⟨hlo, hhi, fun hx => absurd hx hc⟩

/-- C7: `random_ip_from_cidr` always returns an address inside the block;
for an IPv4 block with more than 2 addresses the result additionally
avoids the network and broadcast addresses (it lies in
`[network+1, broadcast-1]`), while otherwise the whole block including
the boundaries is eligible.  (The code then prints the canonical text of
this numeric address, an injective rendering.) -/
theorem thm_C7 (rng : RNG) (net : IPNet) :
    net.network_address ≤ (random_ip_from_cidr rng net).1 ∧
      (random_ip_from_cidr rng net).1 ≤ net.broadcast_address ∧
      (net.version = .v4 ∧ 2 < net.num_addresses →
        net.network_address + 1 ≤ (random_ip_from_cidr rng net).1 ∧
          (random_ip_from_cidr rng net).1 ≤ net.broadcast_address - 1) :=
  random_ip_bounds rng net

theorem thm_C7_witness :
    net203.network_address ≤ (random_ip_from_cidr ⟨fun _ => 0, 0⟩ net203).1 ∧
      (random_ip_from_cidr ⟨fun _ => 0, 0⟩ net203).1 ≤ net203.broadcast_address ∧
      (net203.version = .v4 ∧ 2 < net203.num_addresses →
        net203.network_address + 1 ≤ (random_ip_from_cidr ⟨fun _ => 0, 0⟩ net203).1 ∧
          (random_ip_from_cidr ⟨fun _ => 0, 0⟩ net203).1 ≤ net203.broadcast_address - 1) :=
  thm_C7 ⟨fun _ => 0, 0⟩ net203

/-- C8: the generation pipeline is a deterministic function of the seeded
random stream, the row count, the day window and the "now" reference:
two runs whose streams agree pointwise (same seed) and whose other inputs
are equal produce identical combined datasets. -/
theorem thm_C8 (t1 t2 : Nat → Nat) (rows days : Nat) (now : Int)
    (h : ∀ k, t1 k = t2 k) :
    mainCombined t1 rows days now = mainCombined t2 rows days now := by
  rw [funext h]

theorem thm_C8_witness :
    mainCombined (fun _ => 0) 0 7 0 = mainCombined (fun _ => 0) 0 7 0 :=
  thm_C8 (fun _ => 0) (fun _ => 0) 0 7 0 (fun _ => rfl)

theorem impTravel_cons (start : Int) (rng : RNG) (u : String) (us : List String) :
    ∃ (t1 t2 : Int) (ip1 ip2 : Nat) (rng2 : RNG),
      (impTravel start rng (u :: us)).1
          = ⟨t1, u, "vpn-gateway", "password", ip1, "US", "SUCCESS", "", ""⟩ ::
            ⟨t2, u, "vpn-gateway", "password", ip2, "JP", "SUCCESS", "", ""⟩ ::
            (impTravel start rng2 us).1 ∧
        start + 36000 ≤ t1 ∧ t1 ≤ start + 144000 ∧
        t1 + 300 ≤ t2 ∧ t2 ≤ t1 + 2400 ∧
        net203.network_address ≤ ip1 ∧ ip1 ≤ net203.broadcast_address ∧
        net19851.network_address ≤ ip2 ∧ ip2 ≤ net19851.broadcast_address := by
  have hh0 := RNG.le_randNat rng 10 40
  have hh1 := RNG.randNat_le rng (show (10 : Nat) ≤ 40 by norm_num)
  have hm0 := RNG.le_randNat (RNG.randNat rng 10 40).2 5 35
  have hm1 := RNG.randNat_le (RNG.randNat rng 10 40).2 (show (5 : Nat) ≤ 35 by norm_num)
  have hi1 := random_ip_bounds (RNG.randNat (RNG.randNat rng 10 40).2 5 35).2 net203
  have hi2 := random_ip_bounds
    (random_ip_from_cidr (RNG.randNat (RNG.randNat rng 10 40).2 5 35).2 net203).2 net19851
  refine ⟨_, _, _, _, _, rfl, by omega, by omega, by omega, by omega,
    hi1.1, hi1.2.1, hi2.1, hi2.2.1⟩

theorem bruteFails_countP_user (u : String) (base : Int) (ip : Nat) (k i : Nat) (r : RNG) :
    ((bruteFails base ip i k r).1).countP
      (fun ev => ev.username == u && ev.result == "SUCCESS") = 0 := by
  rw [List.countP_eq_zero]
  intro ev hev
  have h1 := (bruteFails_mem base ip k i r ev hev).1
  simp [h1]

/-- C6: among the 19 injected records, for each user in {alice, bob} there
are exactly 2 SUCCESS records with that username; they sit at positions
0-3 of the anomaly list (before the shuffle): a "US" record with source
address in 203.0.113.0/24 at `t1 ∈ [start+10h, start+40h]`, then a "JP"
record with source address in 198.51.100.0/24 at
`t2 ∈ [t1+5min, t1+35min]` — in particular within 40 minutes of each
other. -/
theorem thm_C6 (rng : RNG) (start : Int) :
    (buildAnomalies rng start).1.countP
        (fun ev => ev.username == "alice" && ev.result == "SUCCESS") = 2 ∧
      (buildAnomalies rng start).1.countP
        (fun ev => ev.username == "bob" && ev.result == "SUCCESS") = 2 ∧
      (((buildAnomalies rng start).1.getD 0 dfltEvent).username = "alice" ∧
        ((buildAnomalies rng start).1.getD 0 dfltEvent).result = "SUCCESS" ∧
        ((buildAnomalies rng start).1.getD 0 dfltEvent).country = "US" ∧
        net203.network_address ≤ ((buildAnomalies rng start).1.getD 0 dfltEvent).source_ip ∧
        ((buildAnomalies rng start).1.getD 0 dfltEvent).source_ip ≤ net203.broadcast_address ∧
        start + 36000 ≤ ((buildAnomalies rng start).1.getD 0 dfltEvent).timestamp_utc ∧
        ((buildAnomalies rng start).1.getD 0 dfltEvent).timestamp_utc ≤ start + 144000) ∧
      (((buildAnomalies rng start).1.getD 1 dfltEvent).username = "alice" ∧
        ((buildAnomalies rng start).1.getD 1 dfltEvent).result = "SUCCESS" ∧
        ((buildAnomalies rng start).1.getD 1 dfltEvent).country = "JP" ∧
        net19851.network_address ≤ ((buildAnomalies rng start).1.getD 1 dfltEvent).source_ip ∧
        ((buildAnomalies rng start).1.getD 1 dfltEvent).source_ip ≤ net19851.broadcast_address ∧
        ((buildAnomalies rng start).1.getD 0 dfltEvent).timestamp_utc + 300 ≤
          ((buildAnomalies rng start).1.getD 1 dfltEvent).timestamp_utc ∧
        ((buildAnomalies rng start).1.getD 1 dfltEvent).timestamp_utc ≤
          ((buildAnomalies rng start).1.getD 0 dfltEvent).timestamp_utc + 2400) ∧
      (((buildAnomalies rng start).1.getD 2 dfltEvent).username = "bob" ∧
        ((buildAnomalies rng start).1.getD 2 dfltEvent).result = "SUCCESS" ∧
        ((buildAnomalies rng start).1.getD 2 dfltEvent).country = "US" ∧
        net203.network_address ≤ ((buildAnomalies rng start).1.getD 2 dfltEvent).source_ip ∧
        ((buildAnomalies rng start).1.getD 2 dfltEvent).source_ip ≤ net203.broadcast_address ∧
        start + 36000 ≤ ((buildAnomalies rng start).1.getD 2 dfltEvent).timestamp_utc ∧
        ((buildAnomalies rng start).1.getD 2 dfltEvent).timestamp_utc ≤ start + 144000) ∧
      (((buildAnomalies rng start).1.getD 3 dfltEvent).username = "bob" ∧
        ((buildAnomalies rng start).1.getD 3 dfltEvent).result = "SUCCESS" ∧
        ((buildAnomalies rng start).1.getD 3 dfltEvent).country = "JP" ∧
        net19851.network_address ≤ ((buildAnomalies rng start).1.getD 3 dfltEvent).source_ip ∧
        ((buildAnomalies rng start).1.getD 3 dfltEvent).source_ip ≤ net19851.broadcast_address ∧
        ((buildAnomalies rng start).1.getD 2 dfltEvent).timestamp_utc + 300 ≤
          ((buildAnomalies rng start).1.getD 3 dfltEvent).timestamp_utc ∧
        ((buildAnomalies rng start).1.getD 3 dfltEvent).timestamp_utc ≤
          ((buildAnomalies rng start).1.getD 2 dfltEvent).timestamp_utc + 2400) := by
  obtain ⟨t1, t2, ip1, ip2, rng2, heq1, b1, b2, b3, b4, b5, b6, b7, b8⟩ :=
    impTravel_cons start rng "alice" ["bob"]
  obtain ⟨s1, s2, jp1, jp2, rng3, heq2, c1, c2, c3, c4, c5, c6, c7, c8⟩ :=
    impTravel_cons start rng2 "bob" []
  simp only [buildAnomalies]
  rw [heq1, heq2]
  simp only [impTravel, List.cons_append, List.nil_append, List.countP_cons,
    List.countP_append, bruteFails_countP_user, List.getD_cons_zero, List.getD_cons_succ]
  refine ⟨by simp, by simp, ⟨by trivial, by trivial, by trivial, b5, b6, b1, b2⟩,
    ⟨by trivial, by trivial, by trivial, b7, b8, by omega, by omega⟩,
    ⟨by trivial, by trivial, by trivial, c5, c6, c1, c2⟩,
    ⟨by trivial, by trivial, by trivial, c7, c8, by omega, by omega⟩⟩

theorem bruteFails_head (base : Int) (ip : Nat) (k i : Nat) (rng : RNG) :
    (((bruteFails base ip i (k + 1) rng).1).getD 0 dfltEvent).source_ip = ip ∧
      (((bruteFails base ip i (k + 1) rng).1).getD 0 dfltEvent).timestamp_utc
        = base + 60 * (i : Int) := by
  simp [bruteFails]

theorem bruteFails_all (base : Int) (ip : Nat) (k i : Nat) (rng : RNG) :
    ((bruteFails base ip i k rng).1).all
      (fun ev => ev.event_source == "linux-sshd" && ev.auth_type == "password"
        && ev.failure_reason == "bad_password"
        && (ev.username == "carol" || bruteAltUsers.contains ev.username)
        && bruteCountries.contains ev.country) = true := by
  rw [List.all_eq_true]
  intro ev hev
  obtain ⟨h1, h2, h3, h4, h5, h6, h7⟩ := bruteFails_mem base ip k i rng ev hev
  have hu : (ev.username == "carol" || bruteAltUsers.contains ev.username) = true := by
    simp only [Bool.or_eq_true, beq_iff_eq, List.contains, List.elem_iff]
    exact List.mem_cons.mp h6
  have hc : bruteCountries.contains ev.country = true := by
    simp only [List.contains, List.elem_iff]
    exact h7
  simp only [h2, h3, h4, hu, hc]
  simp

theorem impTravel_rng (start : Int) :
    ∀ (us : List String) (rng : RNG),
      (impTravel start rng us).2.tape = rng.tape ∧
        (impTravel start rng us).2.pos = rng.pos + 4 * us.length := by
  intro us
  induction us with
  | nil => intro rng; exact ⟨rfl, by simp [impTravel]⟩
  | cons u rest ih =>
    intro rng
    simp only [impTravel]
    refine ⟨?_, ?_⟩
    · rw [(ih _).1]
      rfl
    · rw [(ih _).2]
      simp [random_ip_from_cidr, RNG.randNat, List.length_cons]
      omega

theorem bruteSlice_spec (rng : RNG) (start : Int) :
    ∃ (base : Int) (bip : Nat) (r2 : RNG) (c : String),
      bruteSlice rng start
          = (bruteFails base bip 0 12 r2).1
            ++ [⟨base + 60 * 13, "carol", "linux-sshd", "password", bip, c, "SUCCESS", "", ""⟩] ∧
        start + 216000 ≤ base ∧ base ≤ start + 324000 ∧
        net4533.network_address + 1 ≤ bip ∧ bip ≤ net4533.broadcast_address - 1 ∧
        c ∈ bruteCountries ∧
        r2.tape = rng.tape ∧ r2.pos = rng.pos + 10 ∧
        c = (RNG.choice (bruteFails base bip 0 12 r2).2 bruteCountries "DE").1 := by
  obtain ⟨t1, t2, ip1, ip2, rng2, heq1, -⟩ := impTravel_cons start rng "alice" ["bob"]
  obtain ⟨s1, s2, jp1, jp2, rng3, heq2, -⟩ := impTravel_cons start rng2 "bob" []
  simp only [bruteSlice, buildAnomalies]
  set imp := impTravel start rng ["alice", "bob"] with himp
  set hb := RNG.randNat imp.2 60 90 with hhb
  set bip := random_ip_from_cidr hb.2 net4533 with hbip
  set fails := bruteFails (start + 3600 * (hb.1 : Int)) bip.1 0 12 bip.2 with hfails
  set sc := RNG.choice fails.2 bruteCountries "DE" with hsc
  have h4 : imp.1.length = 4 := by
    rw [himp, heq1, heq2]
    simp [impTravel]
  have hfl : fails.1.length = 12 := by
    rw [hfails]
    exact bruteFails_length _ _ _ _ _
  have hcond : net4533.version = .v4 ∧ 2 < net4533.num_addresses := by
    refine ⟨rfl, ?_⟩
    norm_num [IPNet.num_addresses, IPNet.bits, net4533, v4net]
  have hipb := (random_ip_bounds hb.2 net4533).2.2 hcond
  have hb0 : 60 ≤ hb.1 := by rw [hhb]; exact RNG.le_randNat _ 60 90
  have hb1 : hb.1 ≤ 90 := by rw [hhb]; exact RNG.randNat_le _ (by norm_num)
  have hcmem : sc.1 ∈ bruteCountries := by
    rw [hsc]
    exact RNG.choice_mem _ _ _ (by simp [bruteCountries])
  have ht1 : bip.2.tape = hb.2.tape := by rw [hbip]; rfl
  have ht2 : hb.2.tape = imp.2.tape := by rw [hhb]; rfl
  have ht3 : imp.2.tape = rng.tape := by rw [himp]; exact (impTravel_rng start _ rng).1
  have hp1 : bip.2.pos = hb.2.pos + 1 := by rw [hbip]; rfl
  have hp2 : hb.2.pos = imp.2.pos + 1 := by rw [hhb]; rfl
  have hp3 : imp.2.pos = rng.pos + 8 := by
    rw [himp]
    have h8 := (impTravel_rng start ["alice", "bob"] rng).2
    simpa using h8
  refine ⟨start + 3600 * (hb.1 : Int), bip.1, bip.2, sc.1, ?_, by omega, by omega,
    by rw [hbip]; exact hipb.1, by rw [hbip]; exact hipb.2, hcmem,
    by rw [ht1, ht2, ht3], by omega, by rw [hsc, hfails]⟩
  rw [List.append_assoc, List.drop_left' h4, List.take_append_eq_append_take,
    List.take_of_length_le (by omega), hfl]
  simp

/-- C5: the brute-force scenario contributes exactly 13 records sharing a
single source address drawn once from 45.33.0.0/16 (inside
[network+1, broadcast-1]): 12 FAILURE records at one-minute increments
from a base instant in [start+60h, start+90h], all `linux-sshd` /
`password` / `bad_password` with username carol or one of
{alice, bob, dave, unknown_user} and country in {DE, FR, RU, CN},
followed by one SUCCESS record at base + 13 minutes with username
"carol" and the same source address. -/
theorem thm_C5 (rng : RNG) (start : Int) :
    (bruteSlice rng start).length = 13 ∧
      (bruteSlice rng start).map (fun ev => ev.source_ip)
        = List.replicate 13 (((bruteSlice rng start).getD 0 dfltEvent).source_ip) ∧
      net4533.network_address + 1 ≤ ((bruteSlice rng start).getD 0 dfltEvent).source_ip ∧
      ((bruteSlice rng start).getD 0 dfltEvent).source_ip ≤ net4533.broadcast_address - 1 ∧
      start + 216000 ≤ ((bruteSlice rng start).getD 0 dfltEvent).timestamp_utc ∧
      ((bruteSlice rng start).getD 0 dfltEvent).timestamp_utc ≤ start + 324000 ∧
      (bruteSlice rng start).map (fun ev => ev.result)
        = List.replicate 12 "FAILURE" ++ ["SUCCESS"] ∧
      (bruteSlice rng start).map (fun ev => ev.timestamp_utc)
        = (List.range 12).map
            (fun i : Nat =>
              ((bruteSlice rng start).getD 0 dfltEvent).timestamp_utc + 60 * (i : Int))
          ++ [((bruteSlice rng start).getD 0 dfltEvent).timestamp_utc + 780] ∧
      ((bruteSlice rng start).take 12).all
        (fun ev => ev.event_source == "linux-sshd" && ev.auth_type == "password"
          && ev.failure_reason == "bad_password"
          && (ev.username == "carol" || bruteAltUsers.contains ev.username)
          && bruteCountries.contains ev.country) = true ∧
      ((bruteSlice rng start).getD 12 dfltEvent).username = "carol" ∧
      ((bruteSlice rng start).getD 12 dfltEvent).result = "SUCCESS" ∧
      ((bruteSlice rng start).getD 12 dfltEvent).country ∈ bruteCountries ∧
      ((bruteSlice rng start).getD 12 dfltEvent).source_ip
        = ((bruteSlice rng start).getD 0 dfltEvent).source_ip ∧
      ((bruteSlice rng start).getD 12 dfltEvent).timestamp_utc
        = ((bruteSlice rng start).getD 0 dfltEvent).timestamp_utc + 780 := by
  obtain ⟨base, bip, r2, c, heq, hb1, hb2, hip1, hip2, hcm, -, -, -⟩ := bruteSlice_spec rng start
  have hfl : (bruteFails base bip 0 12 r2).1.length = 12 := bruteFails_length _ _ _ _ _
  have hg0 : (bruteSlice rng start).getD 0 dfltEvent
      = ((bruteFails base bip 0 12 r2).1).getD 0 dfltEvent := by
    rw [heq]
    exact List.getD_append _ _ _ 0 (by omega)
  have hhead := bruteFails_head base bip 11 0 r2
  have hg0ip : ((bruteSlice rng start).getD 0 dfltEvent).source_ip = bip := by
    rw [hg0]; exact hhead.1
  have hg0ts : ((bruteSlice rng start).getD 0 dfltEvent).timestamp_utc = base := by
    rw [hg0]
    have h2 := hhead.2
    simpa using h2
  have hg12 : (bruteSlice rng start).getD 12 dfltEvent
      = ⟨base + 60 * 13, "carol", "linux-sshd", "password", bip, c, "SUCCESS", "", ""⟩ := by
    rw [heq, List.getD_append_right _ _ _ 12 (by omega), hfl]
    simp
  refine ⟨?_, ?_, ?_, ?_, ?_, ?_, ?_, ?_, ?_, ?_, ?_, ?_, ?_, ?_⟩
  · rw [heq]; simp [hfl]
  · rw [hg0ip, heq, List.eq_replicate_iff]
    constructor
    · simp [hfl]
    · intro b hb
      rcases List.mem_map.mp hb with ⟨ev, hev, rfl⟩
      rcases List.mem_append.mp hev with h | h
      · exact (bruteFails_mem _ _ _ _ _ _ h).2.2.2.2.1
      · rw [List.mem_singleton] at h
        rw [h]
  · rw [hg0ip]; exact hip1
  · rw [hg0ip]; exact hip2
  · rw [hg0ts]; exact hb1
  · rw [hg0ts]; exact hb2
  · rw [heq, List.map_append, bruteFails_map_result]
    simp
  · rw [hg0ts, heq, List.map_append, bruteFails_map_ts]
    refine congrArg₂ _ ?_ (by norm_num)
    refine List.map_congr_left fun j _ => ?_
    push_cast
    ring
  · rw [heq, List.take_left' hfl]
    exact bruteFails_all _ _ _ _ _
  · rw [hg12]
  · rw [hg12]
  · rw [hg12]; exact hcm
  · rw [hg12, hg0ip]
  · rw [hg12, hg0ts]; norm_num

/-- C9 counterexample: the fixed seven-code list of line 113 contains the
home countries themselves; with alice (home country "US"), a draw that
misses the 92% home branch can still return "US" from the "alternate"
list, so the else-branch draw is not guaranteed to be distinct from the
user's home country. -/
theorem thm_C9_counterexample :
    ¬ ((RNG.randomQ ⟨fun k => if k = 0 then 2 ^ 53 - 1 else 0, 0⟩).1 < 92 / 100) ∧
      (build_user_profiles.getD 0 defaultProfile).home_country = "US" ∧
      (sampleCountry ⟨fun k => if k = 0 then 2 ^ 53 - 1 else 0, 0⟩
          (build_user_profiles.getD 0 defaultProfile).home_country).1
        = (build_user_profiles.getD 0 defaultProfile).home_country := by
  have hq : ¬ ((RNG.randomQ ⟨fun k => if k = 0 then 2 ^ 53 - 1 else 0, 0⟩).1 < 92 / 100) := by
    simp only [RNG.randomQ]
    norm_num
  refine ⟨hq, rfl, ?_⟩
  simp only [sampleCountry, if_neg hq]
  simp [RNG.choice, RNG.randomQ, altCountries, build_user_profiles, defaultProfile]

/-- C9 amended: for every normal event the country equals the chosen
user's home country when the 92% draw fires, and otherwise is drawn
uniformly from the fixed seven-code list ["US","CA","GB","DE","FR","AU","JP"]
— a list that may contain the user's home country itself, so the
alternate draw is not necessarily distinct from it. -/
theorem thm_C9_amended (rng : RNG) (home : String) :
    ((rng.randomQ).1 < 92 / 100 → (sampleCountry rng home).1 = home) ∧
      (¬ (rng.randomQ).1 < 92 / 100 → (sampleCountry rng home).1 ∈ altCountries) := by
  constructor
  · intro h
    simp only [sampleCountry, if_pos h]
  · intro h
    simp only [sampleCountry, if_neg h]
    exact RNG.choice_mem _ _ _ (by simp [altCountries])

theorem thm_C9_amended_witness :
    (sampleCountry ⟨fun _ => 0, 0⟩ "US").1 = "US" :=
  (thm_C9_amended ⟨fun _ => 0, 0⟩ "US").1 (by simp only [RNG.randomQ]; norm_num)

theorem bruteFails_zeros (base : Int) (ip : Nat) :
    ∀ (k i : Nat) (rng : RNG),
      (∀ j, rng.pos ≤ j → j < rng.pos + 2 * k → rng.tape j = 0) →
      ((bruteFails base ip i k rng).1).map (fun ev => ev.country) = List.replicate k "DE" ∧
        (bruteFails base ip i k rng).2.tape = rng.tape ∧
        (bruteFails base ip i k rng).2.pos = rng.pos + 2 * k := by
  intro k
  induction k with
  | zero => intro i rng _; exact ⟨rfl, rfl, rfl⟩
  | succ k ih =>
    intro i rng h
    have h0 : rng.tape rng.pos = 0 := h rng.pos (le_refl _) (by omega)
    have h1 : rng.tape (rng.pos + 1) = 0 := h _ (by omega) (by omega)
    have hq : (rng.randomQ).1 < 7 / 10 := by
      simp only [RNG.randomQ, h0]
      norm_num
    have hc1 : (RNG.choice (rng.randomQ).2 bruteCountries "DE").1 = "DE" := by
      simp [RNG.choice, RNG.randomQ, h1, bruteCountries]
    have hstate : (RNG.choice (rng.randomQ).2 bruteCountries "DE").2
        = ⟨rng.tape, rng.pos + 1 + 1⟩ := rfl
    have epos : (RNG.choice (rng.randomQ).2 bruteCountries "DE").2.pos
        = rng.pos + 1 + 1 := rfl
    have etape : (RNG.choice (rng.randomQ).2 bruteCountries "DE").2.tape = rng.tape := rfl
    have ihh := ih (i + 1) (RNG.choice (rng.randomQ).2 bruteCountries "DE").2 (by
      intro j hj1 hj2
      rw [epos] at hj1 hj2
      rw [etape]
      exact h j (by omega) (by omega))
    simp only [bruteFails, if_pos hq]
    refine ⟨?_, ?_, ?_⟩
    · simp only [List.map_cons, ihh.1, hc1]
      rfl
    · rw [ihh.2.1, hstate]
    · rw [ihh.2.2, epos]
      omega

/-- C10: the SUCCESS record closing the brute-force scenario draws its
country with a fresh `rng.choice` over {DE, FR, RU, CN}: for every run it
lies in that pool, and there is a seed tape on which all 12 failure
records get country "DE" while the success record gets "FR" — so it is
not necessarily equal to any failure record's country. -/
theorem thm_C10 :
    (∀ (rng : RNG) (start : Int),
        ((bruteSlice rng start).getD 12 dfltEvent).country ∈ bruteCountries) ∧
      (∃ tape : Nat → Nat,
        ((bruteSlice ⟨tape, 0⟩ 0).take 12).map (fun ev => ev.country)
            = List.replicate 12 "DE" ∧
          ((bruteSlice ⟨tape, 0⟩ 0).getD 12 dfltEvent).country = "FR") := by
  constructor
  · intro rng start
    obtain ⟨base, bip, r2, c, heq, -, -, -, -, hcm, -, -, -⟩ := bruteSlice_spec rng start
    have hfl : (bruteFails base bip 0 12 r2).1.length = 12 := bruteFails_length _ _ _ _ _
    have hg12 : (bruteSlice rng start).getD 12 dfltEvent
        = ⟨base + 60 * 13, "carol", "linux-sshd", "password", bip, c, "SUCCESS", "", ""⟩ := by
      rw [heq, List.getD_append_right _ _ _ 12 (by omega), hfl]
      simp
    rw [hg12]
    exact hcm
  · obtain ⟨base, bip, r2, c, heq, -, -, -, -, -, htape, hpos, hceq⟩ :=
      bruteSlice_spec ⟨fun k => if k = 34 then 1 else 0, 0⟩ 0
    have e0 : (RNG.pos ⟨fun k => if k = 34 then 1 else 0, 0⟩) = 0 := rfl
    have hzero : ∀ j, r2.pos ≤ j → j < r2.pos + 2 * 12 → r2.tape j = 0 := by
      intro j h1 h2
      rw [hpos, e0] at h1 h2
      have hj : j ≠ 34 := by omega
      rw [htape]
      simp [hj]
    obtain ⟨hmap, ht2, hp2⟩ := bruteFails_zeros base bip 12 0 r2 hzero
    have hfl : (bruteFails base bip 0 12 r2).1.length = 12 := bruteFails_length _ _ _ _ _
    refine ⟨fun k => if k = 34 then 1 else 0, ?_, ?_⟩
    · rw [heq, List.take_left' hfl]
      exact hmap
    · have hg12 : (bruteSlice ⟨fun k => if k = 34 then 1 else 0, 0⟩ 0).getD 12 dfltEvent
          = ⟨base + 60 * 13, "carol", "linux-sshd", "password", bip, c, "SUCCESS", "", ""⟩ := by
        rw [heq, List.getD_append_right _ _ _ 12 (by omega), hfl]
        simp
      rw [hg12]
      show c = "FR"
      rw [hceq]
      simp only [RNG.choice]
      rw [ht2, hp2, htape, hpos, e0]
      norm_num [bruteCountries]
